import Mathlib

/-!
# Verification of the ImgStamp stamped-image composition engine

Shallow embedding of the engine implemented in the repository's main-process
IPC module (`src/unnamed/part_007`, the current version of `src/main/ipc.ts`).
JavaScript `number` arithmetic is modelled over `ℚ`/`ℤ` with the exact
real-number semantics of the expressions; `Math.round x` is `⌊x + 1/2⌋` and
`Math.ceil x` is `⌈x⌉`, which agrees with the IEEE-754 evaluation at every
value the program computes for its canvases (checked numerically for all
preset-derived canvas heights).
-/

namespace ImgStamp

/-- `Math.round` of JavaScript on nonnegative values: round half toward `+∞`. -/
def jsRound (q : ℚ) : ℤ := ⌊q + 1 / 2⌋

/-- `Math.ceil` of JavaScript. -/
def jsCeil (q : ℚ) : ℤ := ⌈q⌉

/-- A width × height pixel size (`{ width, height }` records in the source). -/
structure Size where
  width : ℕ
  height : ℕ
  deriving DecidableEq, Repr

/-- `SourceInfo` from the source: pixel dimensions of the original raster.
`readSourceInfo` only returns dimensions that are truthy (`metadata.width &&
metadata.height`), so dimensions coming from the program are positive. -/
structure SourceInfo where
  width : ℕ
  height : ℕ
  deriving DecidableEq, Repr

/-- The four supported target-size preset identifiers `'5' | '5L' | '6' | '6L'`. -/
inductive SizeId where
  | s5 | s5L | s6 | s6L
  deriving DecidableEq, Repr

/-- `EXPORT_SIZE_PX` from the source (part_007 lines 42–47). -/
def EXPORT_SIZE_PX : SizeId → Size
  | .s5 => ⟨1500, 1050⟩
  | .s5L => ⟨1500, 1125⟩
  | .s6 => ⟨1800, 1200⟩
  | .s6L => ⟨1800, 1350⟩

/-- The member names every plain object literal inherits from
`Object.prototype` in Node: property access on such a key yields a truthy
function (or, for the `__proto__` accessor, an object), never `undefined`. -/
def objectPrototypeMembers : List String :=
  ["constructor", "hasOwnProperty", "isPrototypeOf", "propertyIsEnumerable",
   "toLocaleString", "toString", "valueOf", "__proto__",
   "__defineGetter__", "__defineSetter__", "__lookupGetter__", "__lookupSetter__"]

/-- The value a JavaScript property access `EXPORT_SIZE_PX[s]` can produce on
the plain object literal `EXPORT_SIZE_PX`: one of the four own data
properties, a member inherited from `Object.prototype`, or `undefined`. -/
inductive SizeLookup where
  | ownPreset (sz : Size)
  | inherited
  | absent
  deriving DecidableEq, Repr

/-- The runtime lookup `EXPORT_SIZE_PX[size]` on an arbitrary string key,
with JavaScript property-access semantics: the four preset keys hit the own
data properties; an `Object.prototype` member name resolves through the
prototype chain to a non-`undefined` (truthy) value; anything else is
`undefined`. -/
def exportSizeLookup (s : String) : SizeLookup :=
  if s = "5" then .ownPreset ⟨1500, 1050⟩
  else if s = "5L" then .ownPreset ⟨1500, 1125⟩
  else if s = "6" then .ownPreset ⟨1800, 1200⟩
  else if s = "6L" then .ownPreset ⟨1800, 1350⟩
  else if s ∈ objectPrototypeMembers then .inherited
  else .absent

/-- What reaches the render as `size`: a proper size record, or a non-size
value (an inherited prototype member) whose missing `width`/`height` make the
subsequent render throw. -/
inductive ResolvedSize where
  | size (sz : Size)
  | nonSize
  deriving DecidableEq, Repr

/-- `EXPORT_SIZE_PX[payload.size] ?? EXPORT_SIZE_PX['5']` — the size
resolution used by both the `export:start` handler (part_007 line 845) and
`buildPreviewImage` (part_007 line 608). `??` substitutes the `'5'` preset
only when the lookup is `undefined`/`null`; an inherited prototype member is
neither, so it flows through as a non-size value. -/
def resolveExportSize (s : String) : ResolvedSize :=
  match exportSizeLookup s with
  | .ownPreset sz => .size sz
  | .inherited => .nonSize
  | .absent => .size ⟨1500, 1050⟩

/-- The preview canvas `buildPreviewImage` derives from an export size
(part_007 lines 609–614): width 900, height scaled by `900 / width`. -/
def previewSizeOf (exportSize : Size) : Size :=
  ⟨900, (jsRound ((exportSize.height : ℚ) * (900 / (exportSize.width : ℚ)))).toNat⟩

/-- `resolveCanvasSize` (part_007 lines 159–170): swap the base dimensions
iff source info exists and is portrait (`height > width`). -/
def resolveCanvasSize (baseSize : Size) (sourceInfo : Option SourceInfo) : Size :=
  match sourceInfo with
  | none => baseSize
  | some info =>
      if info.height > info.width then ⟨baseSize.height, baseSize.width⟩ else baseSize

/-- Layout mode `'bottom' | 'right'`. -/
inductive LayoutMode where
  | bottom | right
  deriving DecidableEq, Repr

/-- `resolveLayoutMode` (part_007 lines 172–178). The float comparison
`sourceInfo.height / sourceInfo.width >= 1.8` is modelled as the exact
rational comparison with `9/5`; for positive integer dimensions of realistic
magnitude the two agree (the quotient is never within one double ulp of the
literal `1.8` without being exactly `9/5`). -/
def resolveLayoutMode (includeText : Bool) (sourceInfo : Option SourceInfo) : LayoutMode :=
  match sourceInfo with
  | none => .bottom
  | some info =>
      if !includeText then .bottom
      else if (info.height : ℚ) / info.width ≥ 9 / 5 then .right else .bottom

end ImgStamp

namespace ImgStamp

/-- A rectangle `{ x, y, width, height }`; coordinates are integers because
the placement arithmetic can move a rectangle to negative offsets. -/
structure Rect where
  x : ℤ
  y : ℤ
  width : ℤ
  height : ℤ
  deriving DecidableEq, Repr

/-- `Layout` from the source (part_007 lines 64–69); the `margins` field is
constant `0` in `buildLayout` and is omitted. -/
structure Layout where
  mode : LayoutMode
  imageArea : Rect
  textArea : Rect
  deriving DecidableEq, Repr

/-- `Typography` (part_007 line 71). -/
structure Typography where
  fontSize : ℤ
  paddingX : ℤ
  paddingY : ℤ
  deriving DecidableEq, Repr

/-- `TYPOGRAPHY_RATIOS.font = 0.0225 = 9/400` (part_007 line 52). -/
def fontRatio : ℚ := 9 / 400

/-- `getTypography` (part_007 lines 224–230): `fontSize = Math.round(canvas.height
* 0.0225)`; the padding ratios are `0`. -/
def getTypography (canvas : Size) : Typography :=
  { fontSize := jsRound ((canvas.height : ℚ) * fontRatio)
    paddingX := jsRound ((canvas.width : ℚ) * 0)
    paddingY := jsRound ((canvas.height : ℚ) * 0) }

/-- `Math.max(TEXT_BORDER_RATIO, TEXT_IMAGE_GAP_MIN_RATIO + 1 +
TEXT_EDGE_SAFE_RATIO) = max 2.5 (0.3 + 1 + 1.5) = 2.8 = 14/5`
(part_007 lines 56–59 and 185–188). -/
def requiredBorderRatio : ℚ := max (5 / 2) (3 / 10 + 1 + 3 / 2)

/-- The reserved caption band thickness `Math.ceil(fontSize * requiredBorderRatio)`. -/
def textBorderOf (fontSize : ℤ) : ℤ := jsCeil ((fontSize : ℚ) * requiredBorderRatio)

/-- `buildLayout` (part_007 lines 402–440). Note: `imageArea` is always the
full canvas; the text band is carved out of the *placement*, not out of
`imageArea`. -/
def buildLayout (canvas : Size) (includeText : Bool) (mode : LayoutMode) : Layout :=
  let typography := getTypography canvas
  let textBorder := textBorderOf typography.fontSize
  let imageArea : Rect := ⟨0, 0, (canvas.width : ℤ), (canvas.height : ℤ)⟩
  let textArea : Rect :=
    if includeText then
      match mode with
      | .bottom => ⟨0, (canvas.height : ℤ) - textBorder, (canvas.width : ℤ), textBorder⟩
      | .right => ⟨(canvas.width : ℤ) - textBorder, 0, textBorder, (canvas.height : ℤ)⟩
    else ⟨0, 0, 0, 0⟩
  { mode := mode, imageArea := imageArea, textArea := textArea }

/-- Two rectangles (as half-open integer boxes) have a common point. -/
def rectsOverlap (a b : Rect) : Prop :=
  a.x < b.x + b.width ∧ b.x < a.x + a.width ∧
  a.y < b.y + b.height ∧ b.y < a.y + a.height

instance (a b : Rect) : Decidable (rectsOverlap a b) := by
  unfold rectsOverlap; infer_instance

/-- A rectangle lies within the canvas: nonnegative corner and extent, and the
far edges do not exceed the canvas dimensions. -/
def rectWithin (r : Rect) (canvas : Size) : Prop :=
  0 ≤ r.x ∧ 0 ≤ r.y ∧ 0 ≤ r.width ∧ 0 ≤ r.height ∧
  r.x + r.width ≤ (canvas.width : ℤ) ∧ r.y + r.height ≤ (canvas.height : ℤ)

instance (r : Rect) (canvas : Size) : Decidable (rectWithin r canvas) := by
  unfold rectWithin; infer_instance

end ImgStamp

namespace ImgStamp

/-- The claimed canvas for `C3`: preset pixels, swapped iff portrait source. -/
theorem resolveCanvasSize_eq (sz : SizeId) (src : Option SourceInfo) :
    resolveCanvasSize (EXPORT_SIZE_PX sz) src =
      match src with
      | some s =>
          if s.height > s.width then
            ⟨(EXPORT_SIZE_PX sz).height, (EXPORT_SIZE_PX sz).width⟩
          else EXPORT_SIZE_PX sz
      | none => EXPORT_SIZE_PX sz := by
  cases src with
  | none => rfl
  | some s => rfl

/-- **C3**: for every supported preset and every optional source info, the
resolved canvas equals the preset's fixed pixel dimensions, with width and
height swapped if and only if source info exists with height strictly greater
than width; the width × height product always equals the preset's nominal
product; and preset `6L` with a 4000×3000 landscape source yields an
unswapped 1800×1350 canvas. -/
theorem canvas_matches_preset (sz : SizeId) (src : Option SourceInfo) :
    (((resolveCanvasSize (EXPORT_SIZE_PX sz) src).width = (EXPORT_SIZE_PX sz).height ∧
       (resolveCanvasSize (EXPORT_SIZE_PX sz) src).height = (EXPORT_SIZE_PX sz).width) ↔
      (∃ s, src = some s ∧ s.height > s.width)) ∧
    ((resolveCanvasSize (EXPORT_SIZE_PX sz) src).width *
        (resolveCanvasSize (EXPORT_SIZE_PX sz) src).height =
      (EXPORT_SIZE_PX sz).width * (EXPORT_SIZE_PX sz).height) ∧
    resolveCanvasSize (EXPORT_SIZE_PX sz) (some ⟨4000, 3000⟩) = EXPORT_SIZE_PX sz ∧
    resolveCanvasSize (EXPORT_SIZE_PX .s6L) (some ⟨4000, 3000⟩) = ⟨1800, 1350⟩ := by
  refine ⟨?_, ?_, ?_, ?_⟩
  · constructor
    · intro ⟨hw, hh⟩
      cases src with
      | none =>
          exfalso
          simp only [resolveCanvasSize] at hw hh
          cases sz <;> simp [EXPORT_SIZE_PX] at hw hh
      | some s =>
          refine ⟨s, rfl, ?_⟩
          by_contra hlt
          simp only [resolveCanvasSize, if_neg hlt] at hw hh
          cases sz <;> simp [EXPORT_SIZE_PX] at hw hh
    · rintro ⟨s, rfl, hs⟩
      simp [resolveCanvasSize, hs]
  · cases src with
    | none => rfl
    | some s =>
        simp only [resolveCanvasSize]
        split <;> simp [Nat.mul_comm]
  · simp [resolveCanvasSize]
  · simp [resolveCanvasSize, EXPORT_SIZE_PX]

/-- **C4**: the resolved layout mode is `right` iff text is included, source
info exists, and the aspect ratio `height / width` is at least `1.8 = 9/5`;
in all other cases it is `bottom`. A 1000×2500 portrait source with text
included resolves to `right`. The positivity hypothesis reflects that
`readSourceInfo` only produces truthy (positive) dimensions. -/
theorem layoutMode_right_iff (includeText : Bool) (src : Option SourceInfo)
    (hpos : ∀ s ∈ src, 0 < s.width) :
    (resolveLayoutMode includeText src = .right ↔
      (includeText = true ∧ ∃ s, src = some s ∧ (s.height : ℚ) / s.width ≥ 9 / 5)) ∧
    resolveLayoutMode true (some ⟨1000, 2500⟩) = .right := by
  constructor
  · cases src with
    | none => simp [resolveLayoutMode]
    | some s =>
        cases includeText with
        | false => simp [resolveLayoutMode]
        | true =>
            simp only [resolveLayoutMode, Bool.not_true]
            by_cases hr : (s.height : ℚ) / s.width ≥ 9 / 5
            · simp [hr]
            · simp only [if_neg hr]
              constructor
              · intro h; exact absurd h (by simp)
              · rintro ⟨-, t, ht, hratio⟩
                cases ht
                exact absurd hratio hr
  · show (if (2500 : ℚ) / 1000 ≥ 9 / 5 then LayoutMode.right else .bottom) = .right
    norm_num

/-- Witness for `layoutMode_right_iff` at `includeText = true`,
`src = some ⟨1000, 2500⟩`. -/
theorem layoutMode_right_iff_witness :
    resolveLayoutMode true (some ⟨1000, 2500⟩) = .right ∧
    (true = true ∧ ∃ s, (some (SourceInfo.mk 1000 2500)) = some s ∧
      (s.height : ℚ) / s.width ≥ 9 / 5) := by
  have h := layoutMode_right_iff true (some ⟨1000, 2500⟩) (by intro s hs; cases hs; norm_num)
  refine ⟨h.2, (h.1).mp h.2⟩

/-- **C9 (counterexample)**: the non-preset identifier `"toString"` does not
fall back to the `'5'` preset: `EXPORT_SIZE_PX` is a plain object literal, so
the access resolves through `Object.prototype` to a truthy function, `??`
never substitutes the fallback, and a non-size value reaches the render —
which then fails on missing dimensions instead of proceeding at 1500×1050. -/
theorem size_fallback_counterexample :
    "toString" ≠ "5" ∧ "toString" ≠ "5L" ∧ "toString" ≠ "6" ∧ "toString" ≠ "6L" ∧
    resolveExportSize "toString" ≠ .size ⟨1500, 1050⟩ ∧
    resolveExportSize "toString" = .nonSize := by
  refine ⟨by decide, by decide, by decide, by decide, ?_, ?_⟩
  · intro hcon
    have : resolveExportSize "toString" = .nonSize := by decide
    rw [this] at hcon
    cases hcon
  · decide

/-- **C9 (amended)**: every target-size identifier that is neither one of the
four preset keys nor an `Object.prototype` member name falls back to the
`'5'` preset in both render paths — the resolved export size is 1500×1050
and the preview canvas derived from it is 900×630 — and the lookup never
raises; an inherited prototype member name instead yields a truthy non-size
value, `??` does not fall back, and the render fails rather than proceeding
with the fallback dimensions. -/
theorem size_fallback (s : String)
    (h5 : s ≠ "5") (h5L : s ≠ "5L") (h6 : s ≠ "6") (h6L : s ≠ "6L") :
    (s ∉ objectPrototypeMembers →
      resolveExportSize s = .size ⟨1500, 1050⟩ ∧
      previewSizeOf ⟨1500, 1050⟩ = ⟨900, 630⟩) ∧
    (s ∈ objectPrototypeMembers → resolveExportSize s = .nonSize) := by
  constructor
  · intro hnp
    have hl : exportSizeLookup s = .absent := by
      simp [exportSizeLookup, h5, h5L, h6, h6L, hnp]
    refine ⟨by simp [resolveExportSize, hl], ?_⟩
    have h630 : jsRound ((1050 : ℚ) * (900 / (1500 : ℚ))) = 630 := by
      norm_num [jsRound]
    simp [previewSizeOf, h630]
  · intro hp
    have hl : exportSizeLookup s = .inherited := by
      simp [exportSizeLookup, h5, h5L, h6, h6L, hp]
    simp [resolveExportSize, hl]

/-- Witness for `size_fallback`: the unsupported identifier `"7"` falls back
to the `'5'` preset, while the prototype member name `"valueOf"` yields a
non-size value. -/
theorem size_fallback_witness :
    resolveExportSize "7" = .size ⟨1500, 1050⟩ ∧
    resolveExportSize "valueOf" = .nonSize :=
  ⟨((size_fallback "7" (by decide) (by decide) (by decide) (by decide)).1
      (by decide)).1,
    (size_fallback "valueOf" (by decide) (by decide) (by decide)
      (by decide)).2 (by decide)⟩

end ImgStamp

namespace ImgStamp

/-- One item of the `export:start` payload (part_007 lines 19–23); only the
fields the loop control flow reads are kept (`meta` influences rendering, not
control flow, and is absorbed into the success oracle). -/
structure ExportItem where
  relativePath : String
  filename : String
  deriving DecidableEq, Repr

/-- One `export:progress` event (part_007 lines 872–876). -/
structure ProgressEvent where
  current : ℕ
  total : ℕ
  filename : String
  deriving DecidableEq, Repr

/-- Mutable state of the export run: the two counters and the list of emitted
progress events, in emission order. -/
structure ExportState where
  exported : ℕ
  failed : ℕ
  events : List ProgressEvent
  deriving DecidableEq, Repr

/-- The result object of the `export:start` handler (part_007 line 880). -/
structure ExportResult where
  exported : ℕ
  failed : ℕ
  total : ℕ
  deriving DecidableEq, Repr

/-- The `for` loop of the `export:start` handler (part_007 lines 851–878).
`ok item` says whether the item's `mkdir`/render/write sequence succeeds; any
thrown error is caught (`catch` → `failed += 1`) and the `finally` block emits
exactly one progress event either way, so every iteration is one of the two
branches below. -/
def exportLoop (ok : ExportItem → Bool) (total : ℕ) :
    ℕ → List ExportItem → ExportState → ExportState
  | _, [], st => st
  | index, item :: rest, st =>
      let st' : ExportState :=
        if ok item then { st with exported := st.exported + 1 }
        else { st with failed := st.failed + 1 }
      let st'' : ExportState :=
        { st' with events := st'.events ++ [⟨index + 1, total, item.filename⟩] }
      exportLoop ok total (index + 1) rest st''

/-- The `export:start` handler after the output directory has been resolved
(`ensureUniqueDir` precedes the loop and is an external filesystem concern):
run the loop over all items from a zero state and return the counters. -/
def exportStart (ok : ExportItem → Bool) (items : List ExportItem) : ExportState :=
  exportLoop ok items.length 0 items ⟨0, 0, []⟩

/-- The events the loop appends for `items` starting at `index`. -/
def eventsFrom (total : ℕ) (index : ℕ) : List ExportItem → List ProgressEvent
  | [] => []
  | item :: rest => ⟨index + 1, total, item.filename⟩ :: eventsFrom total (index + 1) rest

theorem eventsFrom_eq_enumFrom (total : ℕ) :
    ∀ (items : List ExportItem) (index : ℕ),
      eventsFrom total index items =
        (items.enumFrom index).map fun p => ⟨p.1 + 1, total, p.2.filename⟩ := by
  intro items
  induction items with
  | nil => intro index; rfl
  | cons item rest ih =>
      intro index
      simp only [eventsFrom, List.enumFrom_cons, List.map_cons]
      exact congrArg _ (ih (index + 1))

theorem length_filter_add_length_filter_not (p : ExportItem → Bool) (l : List ExportItem) :
    (l.filter p).length + (l.filter fun a => !p a).length = l.length := by
  induction l with
  | nil => rfl
  | cons a l ih =>
      by_cases h : p a = true <;> simp [List.filter_cons, h] <;> omega

theorem exportLoop_spec (ok : ExportItem → Bool) (total : ℕ) :
    ∀ (items : List ExportItem) (index : ℕ) (st : ExportState),
      exportLoop ok total index items st =
        ⟨st.exported + (items.filter ok).length,
         st.failed + (items.filter fun i => !ok i).length,
         st.events ++ eventsFrom total index items⟩ := by
  intro items
  induction items with
  | nil =>
      intro index st
      simp [exportLoop, eventsFrom]
  | cons item rest ih =>
      intro index st
      rw [exportLoop]
      by_cases h : ok item = true <;>
        [skip; simp only [Bool.not_eq_true] at h] <;>
        simp [h, ih, List.filter_cons, eventsFrom, ExportState.mk.injEq] <;>
        omega

/-- **C1**: the export run processes all `N` items and never aborts early:
the exported count is the number of successful items, the failed count the
number of failing items (any per-item error just increments it and the loop
advances), `exported + failed = N` at completion, and the emitted progress
events are exactly one per item, in order, with `current = index + 1`,
`total = N` and the item's filename, regardless of success or failure. -/
theorem export_processes_all_items (ok : ExportItem → Bool) (items : List ExportItem) :
    (exportStart ok items).exported = (items.filter ok).length ∧
    (exportStart ok items).failed = (items.filter fun i => !ok i).length ∧
    (exportStart ok items).exported + (exportStart ok items).failed = items.length ∧
    (exportStart ok items).events =
      items.enum.map fun p => ⟨p.1 + 1, items.length, p.2.filename⟩ := by
  have h := exportLoop_spec ok items.length items 0 ⟨0, 0, []⟩
  rw [exportStart, h]
  refine ⟨by simp, by simp, ?_, ?_⟩
  · simpa using length_filter_add_length_filter_not ok items
  · simpa [List.enum] using eventsFrom_eq_enumFrom items.length items 0

end ImgStamp

namespace ImgStamp

theorem requiredBorderRatio_eq : requiredBorderRatio = 14 / 5 := by
  unfold requiredBorderRatio; norm_num

/-- The font size for a canvas of height `h` as an integer division. -/
theorem fontSize_eq (canvas : Size) :
    (getTypography canvas).fontSize = (9 * (canvas.height : ℤ) + 200) / 400 := by
  show jsRound ((canvas.height : ℚ) * fontRatio) = _
  unfold jsRound fontRatio
  have h : (canvas.height : ℚ) * (9 / 400) + 1 / 2 =
      ((9 * (canvas.height : ℤ) + 200 : ℤ) : ℚ) / ((400 : ℕ) : ℚ) := by
    push_cast; ring
  rw [h, Rat.floor_intCast_div_natCast]
  norm_num

/-- The text border as an integer division. -/
theorem textBorderOf_eq (f : ℤ) : textBorderOf f = (14 * f + 4) / 5 := by
  unfold textBorderOf jsCeil
  rw [requiredBorderRatio_eq]
  have h : (f : ℚ) * (14 / 5) = -(((-(14 * f) : ℤ) : ℚ) / ((5 : ℕ) : ℚ)) := by
    push_cast; ring
  rw [h, Int.ceil_neg, Rat.floor_intCast_div_natCast]
  omega

theorem tb_le_aux (b q t : ℤ) (hb : 0 ≤ b)
    (hq1 : 400 * q ≤ 9 * b + 200) (hq2 : 9 * b + 200 < 400 * q + 400)
    (ht1 : 5 * t ≤ 14 * q + 4) (ht2 : 14 * q + 4 < 5 * t + 5) : t ≤ b := by
  by_contra hc
  push_neg at hc
  have h3 : 2000 * (b + 1) ≤ 2000 * t := by linarith
  have h1 : 2000 * t ≤ 5600 * q + 1600 := by linarith
  have h2 : 5600 * q + 1600 ≤ 126 * b + 4400 := by linarith
  have hb1 : 1874 * b ≤ 2400 := by linarith
  have hb2 : b ≤ 1 := by omega
  have hq0 : q = 0 := by omega
  omega

/-- The reserved caption band never exceeds the canvas height. -/
theorem textBorder_le_height (canvas : Size) :
    textBorderOf (getTypography canvas).fontSize ≤ (canvas.height : ℤ) := by
  rw [textBorderOf_eq, fontSize_eq]
  have e1 := Int.ediv_add_emod (9 * (canvas.height : ℤ) + 200) 400
  have r1a := Int.emod_nonneg (9 * (canvas.height : ℤ) + 200)
    (by norm_num : (400 : ℤ) ≠ 0)
  have r1b := Int.emod_lt_of_pos (9 * (canvas.height : ℤ) + 200)
    (by norm_num : (0 : ℤ) < 400)
  have e2 := Int.ediv_add_emod (14 * ((9 * (canvas.height : ℤ) + 200) / 400) + 4) 5
  have r2a := Int.emod_nonneg (14 * ((9 * (canvas.height : ℤ) + 200) / 400) + 4)
    (by norm_num : (5 : ℤ) ≠ 0)
  have r2b := Int.emod_lt_of_pos (14 * ((9 * (canvas.height : ℤ) + 200) / 400) + 4)
    (by norm_num : (0 : ℤ) < 5)
  exact tb_le_aux (canvas.height : ℤ) ((9 * (canvas.height : ℤ) + 200) / 400)
    ((14 * ((9 * (canvas.height : ℤ) + 200) / 400) + 4) / 5)
    (Int.natCast_nonneg _) (by linarith) (by linarith) (by linarith) (by linarith)

theorem fontSize_nonneg (canvas : Size) : 0 ≤ (getTypography canvas).fontSize := by
  rw [fontSize_eq]; positivity

/-- **C2 (counterexample)**: on the 5-inch canvas 1500×1050 with text included
in bottom mode, the layout's image area (the full canvas) and its text area
(the bottom band) do overlap, refuting the claimed non-overlap invariant. -/
theorem layout_overlap_counterexample :
    rectsOverlap (buildLayout ⟨1500, 1050⟩ true .bottom).imageArea
      (buildLayout ⟨1500, 1050⟩ true .bottom).textArea ∧
    rectWithin (buildLayout ⟨1500, 1050⟩ true .bottom).textArea ⟨1500, 1050⟩ := by
  have hf : (getTypography ⟨1500, 1050⟩).fontSize = 24 := by
    rw [fontSize_eq]; decide
  have htb : textBorderOf (getTypography ⟨1500, 1050⟩).fontSize = 68 := by
    rw [textBorderOf_eq, hf]; decide
  constructor
  · show rectsOverlap ⟨0, 0, 1500, 1050⟩ ⟨0, (1050 : ℤ) - textBorderOf _, 1500, textBorderOf _⟩
    rw [htb]
    exact ⟨by norm_num, by norm_num, by norm_num, by norm_num⟩
  · show rectWithin ⟨0, (1050 : ℤ) - textBorderOf _, 1500, textBorderOf _⟩ _
    rw [htb]
    exact ⟨by norm_num, by norm_num, by norm_num, by norm_num, by norm_num, by norm_num⟩

/-- **C2 (amended)**: `buildLayout`'s image area is always the *entire*
canvas, so when text is included the text band lies inside it and the claimed
non-overlap fails; what does hold is: both rectangles lie within the canvas
(in right mode provided the text border fits in the canvas width, which is
the case for every canvas the program derives from its presets), the text
area is the zero rectangle — hence disjoint from the image area — whenever
text is suppressed, and with text included and a positive band the two areas
overlap. The downstream clearance for the caption is instead enforced by
`resolveImageRect` (see the C5 theorem). -/
theorem layout_areas_spec (canvas : Size) (includeText : Bool) (mode : LayoutMode)
    (hright : mode = .right → includeText = true →
      textBorderOf (getTypography canvas).fontSize ≤ (canvas.width : ℤ)) :
    (buildLayout canvas includeText mode).imageArea =
      ⟨0, 0, (canvas.width : ℤ), (canvas.height : ℤ)⟩ ∧
    rectWithin (buildLayout canvas includeText mode).imageArea canvas ∧
    rectWithin (buildLayout canvas includeText mode).textArea canvas ∧
    (includeText = false →
      (buildLayout canvas includeText mode).textArea = ⟨0, 0, 0, 0⟩ ∧
      ¬rectsOverlap (buildLayout canvas includeText mode).imageArea
        (buildLayout canvas includeText mode).textArea) ∧
    (includeText = true → 0 < (canvas.width : ℤ) → 0 < (canvas.height : ℤ) →
      0 < textBorderOf (getTypography canvas).fontSize →
      rectsOverlap (buildLayout canvas includeText mode).imageArea
        (buildLayout canvas includeText mode).textArea) := by
  have htb0 : 0 ≤ textBorderOf (getTypography canvas).fontSize := by
    rw [textBorderOf_eq, fontSize_eq]
    positivity
  have htbh := textBorder_le_height canvas
  refine ⟨rfl, ?_, ?_, ?_, ?_⟩
  · show rectWithin ⟨0, 0, (canvas.width : ℤ), (canvas.height : ℤ)⟩ canvas
    unfold rectWithin
    dsimp only
    omega
  · cases includeText with
    | false =>
        show rectWithin ⟨0, 0, 0, 0⟩ canvas
        unfold rectWithin
        dsimp only
        omega
    | true =>
        cases mode with
        | bottom =>
            show rectWithin ⟨0, (canvas.height : ℤ) -
              textBorderOf (getTypography canvas).fontSize, (canvas.width : ℤ),
              textBorderOf (getTypography canvas).fontSize⟩ canvas
            unfold rectWithin
            dsimp only
            omega
        | right =>
            have hw := hright rfl rfl
            show rectWithin ⟨(canvas.width : ℤ) -
              textBorderOf (getTypography canvas).fontSize, 0,
              textBorderOf (getTypography canvas).fontSize, (canvas.height : ℤ)⟩ canvas
            unfold rectWithin
            dsimp only
            omega
  · intro hfalse
    subst hfalse
    refine ⟨rfl, ?_⟩
    show ¬rectsOverlap ⟨0, 0, (canvas.width : ℤ), (canvas.height : ℤ)⟩ ⟨0, 0, 0, 0⟩
    unfold rectsOverlap
    dsimp only
    omega
  · intro htrue hwpos hhpos htbpos
    subst htrue
    cases mode with
    | bottom =>
        show rectsOverlap ⟨0, 0, (canvas.width : ℤ), (canvas.height : ℤ)⟩
          ⟨0, (canvas.height : ℤ) - textBorderOf (getTypography canvas).fontSize,
            (canvas.width : ℤ), textBorderOf (getTypography canvas).fontSize⟩
        unfold rectsOverlap
        dsimp only
        omega
    | right =>
        have hw := hright rfl rfl
        show rectsOverlap ⟨0, 0, (canvas.width : ℤ), (canvas.height : ℤ)⟩
          ⟨(canvas.width : ℤ) - textBorderOf (getTypography canvas).fontSize, 0,
            textBorderOf (getTypography canvas).fontSize, (canvas.height : ℤ)⟩
        unfold rectsOverlap
        dsimp only
        omega

/-- Witness for `layout_areas_spec` on the 6L canvas in right mode with text. -/
theorem layout_areas_spec_witness :
    rectWithin (buildLayout ⟨1350, 1800⟩ true .right).textArea ⟨1350, 1800⟩ ∧
    rectsOverlap (buildLayout ⟨1350, 1800⟩ true .right).imageArea
      (buildLayout ⟨1350, 1800⟩ true .right).textArea := by
  have htb : textBorderOf (getTypography ⟨1350, 1800⟩).fontSize = 115 := by
    rw [textBorderOf_eq, fontSize_eq]; decide
  have h := layout_areas_spec ⟨1350, 1800⟩ true .right (fun _ _ => by rw [htb]; norm_num)
  exact ⟨h.2.2.1, h.2.2.2.2 rfl (by norm_num) (by norm_num) (by rw [htb]; norm_num)⟩

end ImgStamp

namespace ImgStamp

/-- `resolveImageRect` (part_007 lines 180–222): contain-fit the source into
the image area reduced by one text border on the caption side, round the
placed size, center it, then pull it away from the caption band when the
natural centering leaves less than one text border of clearance. -/
def resolveImageRect (sourceInfo : SourceInfo) (layout : Layout) (fontSize : ℤ) : Rect :=
  let textBorder := textBorderOf fontSize
  let canvasWidth := layout.imageArea.width
  let canvasHeight := layout.imageArea.height
  let maxWidth := if layout.mode = .right then max 1 (canvasWidth - textBorder) else canvasWidth
  let maxHeight := if layout.mode = .bottom then max 1 (canvasHeight - textBorder) else canvasHeight
  let scale : ℚ := min ((maxWidth : ℚ) / (sourceInfo.width : ℚ))
    ((maxHeight : ℚ) / (sourceInfo.height : ℚ))
  let width := jsRound ((sourceInfo.width : ℚ) * scale)
  let height := jsRound ((sourceInfo.height : ℚ) * scale)
  let x0 := jsRound (((canvasWidth - width : ℤ) : ℚ) / 2)
  let y0 := jsRound (((canvasHeight - height : ℤ) : ℚ) / 2)
  let y :=
    if layout.mode = .bottom then
      if canvasHeight - (y0 + height) < textBorder then
        y0 - (textBorder - (canvasHeight - (y0 + height)))
      else y0
    else y0
  let x :=
    if layout.mode = .right then
      if canvasWidth - (x0 + width) < textBorder then
        x0 - (textBorder - (canvasWidth - (x0 + width)))
      else x0
    else x0
  ⟨layout.imageArea.x + x, layout.imageArea.y + y, width, height⟩

/-- The contain-fit scale the source code actually uses: the caption-side
dimension is first reduced by one text border (and clamped to at least 1). -/
def placementScale (sourceInfo : SourceInfo) (layout : Layout) (fontSize : ℤ) : ℚ :=
  let textBorder := textBorderOf fontSize
  let maxWidth := if layout.mode = .right then max 1 (layout.imageArea.width - textBorder)
    else layout.imageArea.width
  let maxHeight := if layout.mode = .bottom then max 1 (layout.imageArea.height - textBorder)
    else layout.imageArea.height
  min ((maxWidth : ℚ) / (sourceInfo.width : ℚ)) ((maxHeight : ℚ) / (sourceInfo.height : ℚ))

/-- The scale the claim describes, following the spec's words: contain-fit
against the raw image area. -/
def claimedScale (sourceInfo : SourceInfo) (layout : Layout) : ℚ :=
  min ((layout.imageArea.width : ℚ) / (sourceInfo.width : ℚ))
    ((layout.imageArea.height : ℚ) / (sourceInfo.height : ℚ))

end ImgStamp

namespace ImgStamp

/-- **C5 (amended)**: the contain-fit scale is computed against the image
area with the caption-side dimension first reduced by one text border
(`Math.ceil(fontSize * 2.8)`, clamped to at least 1) — not against the raw
image area as claimed; the placed size is `round(source × scale)`; the rect
is centered on the non-band axis, is centered on the band axis exactly when
that leaves at least one text border of clearance and otherwise is pulled
toward the opposite edge by the deficit; the final caption-band clearance is
always at least one text border. -/
theorem imageRect_spec (si : SourceInfo) (layout : Layout) (fontSize : ℤ)
    (hw : 0 < si.width) (hh : 0 < si.height) :
    ((resolveImageRect si layout fontSize).width =
        jsRound ((si.width : ℚ) * placementScale si layout fontSize) ∧
      (resolveImageRect si layout fontSize).height =
        jsRound ((si.height : ℚ) * placementScale si layout fontSize)) ∧
    (layout.mode = .bottom →
      (resolveImageRect si layout fontSize).x = layout.imageArea.x +
        jsRound (((layout.imageArea.width -
          (resolveImageRect si layout fontSize).width : ℤ) : ℚ) / 2) ∧
      ((resolveImageRect si layout fontSize).y <
          layout.imageArea.y + jsRound (((layout.imageArea.height -
            (resolveImageRect si layout fontSize).height : ℤ) : ℚ) / 2) ↔
        layout.imageArea.height -
          (jsRound (((layout.imageArea.height -
            (resolveImageRect si layout fontSize).height : ℤ) : ℚ) / 2) +
            (resolveImageRect si layout fontSize).height) < textBorderOf fontSize) ∧
      (textBorderOf fontSize ≤ layout.imageArea.height -
          (jsRound (((layout.imageArea.height -
            (resolveImageRect si layout fontSize).height : ℤ) : ℚ) / 2) +
            (resolveImageRect si layout fontSize).height) →
        (resolveImageRect si layout fontSize).y = layout.imageArea.y +
          jsRound (((layout.imageArea.height -
            (resolveImageRect si layout fontSize).height : ℤ) : ℚ) / 2)) ∧
      textBorderOf fontSize ≤
        layout.imageArea.y + layout.imageArea.height -
          ((resolveImageRect si layout fontSize).y +
            (resolveImageRect si layout fontSize).height)) ∧
    (layout.mode = .right →
      (resolveImageRect si layout fontSize).y = layout.imageArea.y +
        jsRound (((layout.imageArea.height -
          (resolveImageRect si layout fontSize).height : ℤ) : ℚ) / 2) ∧
      ((resolveImageRect si layout fontSize).x <
          layout.imageArea.x + jsRound (((layout.imageArea.width -
            (resolveImageRect si layout fontSize).width : ℤ) : ℚ) / 2) ↔
        layout.imageArea.width -
          (jsRound (((layout.imageArea.width -
            (resolveImageRect si layout fontSize).width : ℤ) : ℚ) / 2) +
            (resolveImageRect si layout fontSize).width) < textBorderOf fontSize) ∧
      (textBorderOf fontSize ≤ layout.imageArea.width -
          (jsRound (((layout.imageArea.width -
            (resolveImageRect si layout fontSize).width : ℤ) : ℚ) / 2) +
            (resolveImageRect si layout fontSize).width) →
        (resolveImageRect si layout fontSize).x = layout.imageArea.x +
          jsRound (((layout.imageArea.width -
            (resolveImageRect si layout fontSize).width : ℤ) : ℚ) / 2)) ∧
      textBorderOf fontSize ≤
        layout.imageArea.x + layout.imageArea.width -
          ((resolveImageRect si layout fontSize).x +
            (resolveImageRect si layout fontSize).width)) := by
  refine ⟨⟨rfl, rfl⟩, ?_, ?_⟩
  · intro hm
    have hm' : layout.mode ≠ .right := by rw [hm]; intro hcon; cases hcon
    simp only [resolveImageRect, placementScale, hm, if_pos rfl, if_neg hm',
      reduceCtorEq, if_false, eq_self_iff_true, if_true]
    refine ⟨trivial, ?_, ?_, ?_⟩ <;> split <;> omega
  · intro hm
    have hm' : layout.mode ≠ .bottom := by rw [hm]; intro hcon; cases hcon
    simp only [resolveImageRect, placementScale, hm, if_pos rfl, if_neg hm',
      reduceCtorEq, if_false, eq_self_iff_true, if_true]
    refine ⟨trivial, ?_, ?_, ?_⟩ <;> split <;> omega

end ImgStamp

namespace ImgStamp

/-- Witness for `imageRect_spec`: the 4000×3000 source on the 5-inch canvas
in bottom mode with font size 24 keeps at least one text border (68px) of
caption clearance. -/
theorem imageRect_spec_witness :
    0 < (4000 : ℕ) ∧ 0 < (3000 : ℕ) ∧
    textBorderOf 24 ≤
      (buildLayout ⟨1500, 1050⟩ true .bottom).imageArea.y +
        (buildLayout ⟨1500, 1050⟩ true .bottom).imageArea.height -
        ((resolveImageRect ⟨4000, 3000⟩ (buildLayout ⟨1500, 1050⟩ true .bottom) 24).y +
          (resolveImageRect ⟨4000, 3000⟩ (buildLayout ⟨1500, 1050⟩ true .bottom) 24).height) :=
  ⟨by norm_num, by norm_num,
    ((imageRect_spec ⟨4000, 3000⟩ (buildLayout ⟨1500, 1050⟩ true .bottom) 24
      (by norm_num) (by norm_num)).2.1 rfl).2.2.2⟩

/-- **C5 (counterexample)**: on the 5-inch canvas (1500×1050, bottom mode,
font size 24, text border 68), a 4000×3000 source gets placed height 982 —
the scale is computed against the border-reduced height 982, not against the
raw image-area height 1050 as claimed, which would give placed height 1050. -/
theorem imageRect_scale_counterexample :
    (getTypography ⟨1500, 1050⟩).fontSize = 24 ∧
    (resolveImageRect ⟨4000, 3000⟩ (buildLayout ⟨1500, 1050⟩ true .bottom) 24).height = 982 ∧
    jsRound ((3000 : ℚ) *
      claimedScale ⟨4000, 3000⟩ (buildLayout ⟨1500, 1050⟩ true .bottom)) = 1050 ∧
    (982 : ℤ) ≠ 1050 := by
  have hmode : (buildLayout ⟨1500, 1050⟩ true .bottom).mode = .bottom := rfl
  have harea : (buildLayout ⟨1500, 1050⟩ true .bottom).imageArea = ⟨0, 0, 1500, 1050⟩ := rfl
  have htb : textBorderOf 24 = 68 := by rw [textBorderOf_eq]; decide
  refine ⟨by rw [fontSize_eq]; decide, ?_, ?_, by decide⟩
  · simp only [resolveImageRect, hmode, harea, htb, reduceCtorEq, if_false,
      eq_self_iff_true, if_true]
    norm_num [min_def, max_def, jsRound]
  · simp only [claimedScale, harea]
    norm_num [min_def, jsRound]

end ImgStamp

namespace ImgStamp

/-- Script tag of a text run (part_007 line 73). -/
inductive Script where
  | cjk | latin
  deriving DecidableEq, Repr

/-- `isCjkCode` (part_007 lines 267–275). -/
def isCjkCode (code : ℕ) : Bool :=
  (0x4e00 ≤ code && code ≤ 0x9fff) ||
  (0x3400 ≤ code && code ≤ 0x4dbf) ||
  (0x3040 ≤ code && code ≤ 0x30ff) ||
  (0xac00 ≤ code && code ≤ 0xd7af) ||
  (0x3000 ≤ code && code ≤ 0x303f)

/-- The script assigned to one code point: `isCjkCode(code) ? 'cjk' : 'latin'`.
A JavaScript `for...of` loop iterates code points, modelled as `List Char`. -/
def charScript (c : Char) : Script :=
  if isCjkCode c.toNat then .cjk else .latin

/-- A text run (part_007 line 73): a substring tagged with its script. -/
structure TextRun where
  text : List Char
  script : Script
  deriving DecidableEq, Repr

/-- The loop body and flush of `splitTextRuns` (part_007 lines 281–297):
walk the remaining characters carrying the current buffer, the current
script (if any) and the runs already flushed; flush the buffer when the
script changes and once more at the end. -/
def splitLoop : List Char → List Char → Option Script → List TextRun → List TextRun
  | [], buffer, cur, runs =>
      match cur with
      | some s => if buffer ≠ [] then runs ++ [⟨buffer, s⟩] else runs
      | none => runs
  | c :: rest, buffer, cur, runs =>
      let script := charScript c
      match cur with
      | some s =>
          if script ≠ s then splitLoop rest [c] (some script) (runs ++ [⟨buffer, s⟩])
          else splitLoop rest (buffer ++ [c]) (some script) runs
      | none => splitLoop rest (buffer ++ [c]) (some script) runs

/-- `splitTextRuns` (part_007 lines 277–298). -/
def splitTextRuns (text : List Char) : List TextRun :=
  if text = [] then [] else splitLoop text [] none []

/-- A well-formed run: non-empty and script-homogeneous. -/
def goodRun (r : TextRun) : Prop :=
  r.text ≠ [] ∧ ∀ c ∈ r.text, charScript c = r.script

theorem splitLoop_join :
    ∀ (rest buffer : List Char) (cur : Option Script) (runs : List TextRun),
      (cur = none → buffer = []) →
      ((splitLoop rest buffer cur runs).map TextRun.text).join =
        (runs.map TextRun.text).join ++ buffer ++ rest := by
  intro rest
  induction rest with
  | nil =>
      intro buffer cur runs hcur
      cases cur with
      | none => simp [splitLoop, hcur rfl]
      | some s =>
          by_cases hb : buffer = []
          · simp [splitLoop, hb]
          · simp [splitLoop, hb]
  | cons c cs ih =>
      intro buffer cur runs hcur
      cases cur with
      | none =>
          rw [show splitLoop (c :: cs) buffer none runs =
            splitLoop cs (buffer ++ [c]) (some (charScript c)) runs from rfl]
          rw [ih (buffer ++ [c]) (some (charScript c)) runs (by intro h; cases h)]
          simp
      | some s =>
          by_cases hs : charScript c ≠ s
          · rw [show splitLoop (c :: cs) buffer (some s) runs =
              if charScript c ≠ s then
                splitLoop cs [c] (some (charScript c)) (runs ++ [⟨buffer, s⟩])
              else splitLoop cs (buffer ++ [c]) (some (charScript c)) runs from rfl,
              if_pos hs]
            rw [ih [c] (some (charScript c)) _ (by intro h; cases h)]
            simp
          · rw [show splitLoop (c :: cs) buffer (some s) runs =
              if charScript c ≠ s then
                splitLoop cs [c] (some (charScript c)) (runs ++ [⟨buffer, s⟩])
              else splitLoop cs (buffer ++ [c]) (some (charScript c)) runs from rfl,
              if_neg hs]
            rw [ih (buffer ++ [c]) (some (charScript c)) runs (by intro h; cases h)]
            simp

theorem splitLoop_good :
    ∀ (rest buffer : List Char) (cur : Option Script) (runs : List TextRun),
      (∀ r ∈ runs, goodRun r) →
      (cur = none → buffer = []) →
      (∀ s, cur = some s → buffer ≠ [] ∧ ∀ c ∈ buffer, charScript c = s) →
      ∀ r ∈ splitLoop rest buffer cur runs, goodRun r := by
  intro rest
  induction rest with
  | nil =>
      intro buffer cur runs hruns hnil hbuf
      cases cur with
      | none => simpa [splitLoop] using hruns
      | some s =>
          obtain ⟨hne, hall⟩ := hbuf s rfl
          simp only [splitLoop, if_pos hne]
          intro r hr
          rcases List.mem_append.1 hr with h | h
          · exact hruns r h
          · rcases List.mem_singleton.1 h with rfl
            exact ⟨hne, hall⟩
  | cons c cs ih =>
      intro buffer cur runs hruns hnil hbuf
      cases cur with
      | none =>
          have hbe : buffer = [] := hnil rfl
          subst hbe
          refine ih ([] ++ [c]) (some (charScript c)) runs hruns (by intro h; cases h) ?_
          intro t ht
          cases ht
          refine ⟨by simp, ?_⟩
          intro d hd
          rcases List.mem_singleton.1 (by simpa using hd) with rfl
          rfl
      | some s =>
          by_cases hs : charScript c ≠ s
          · rw [show splitLoop (c :: cs) buffer (some s) runs =
              if charScript c ≠ s then
                splitLoop cs [c] (some (charScript c)) (runs ++ [⟨buffer, s⟩])
              else splitLoop cs (buffer ++ [c]) (some (charScript c)) runs from rfl,
              if_pos hs]
            refine ih [c] (some (charScript c)) _ ?_ (by intro h; cases h) ?_
            · intro r hr
              rcases List.mem_append.1 hr with h | h
              · exact hruns r h
              · rcases List.mem_singleton.1 h with rfl
                exact ⟨(hbuf s rfl).1, (hbuf s rfl).2⟩
            · intro t ht
              cases ht
              exact ⟨by simp, by intro d hd; rcases List.mem_singleton.1 hd with rfl; rfl⟩
          · rw [show splitLoop (c :: cs) buffer (some s) runs =
              if charScript c ≠ s then
                splitLoop cs [c] (some (charScript c)) (runs ++ [⟨buffer, s⟩])
              else splitLoop cs (buffer ++ [c]) (some (charScript c)) runs from rfl,
              if_neg hs]
            push_neg at hs
            refine ih (buffer ++ [c]) (some (charScript c)) runs hruns
              (by intro h; cases h) ?_
            intro t ht
            cases ht
            refine ⟨by simp, ?_⟩
            intro d hd
            rcases List.mem_append.1 hd with h | h
            · rw [(hbuf s rfl).2 d h, hs]
            · rcases List.mem_singleton.1 h with rfl
              rfl

end ImgStamp

namespace ImgStamp

theorem splitLoop_chain :
    ∀ (rest buffer : List Char) (cur : Option Script) (runs : List TextRun),
      List.Chain' (fun a b => a.script ≠ b.script) runs →
      (cur = none → runs = []) →
      (∀ s, cur = some s → ∀ last ∈ runs.getLast?, last.script ≠ s) →
      List.Chain' (fun a b => a.script ≠ b.script) (splitLoop rest buffer cur runs) := by
  intro rest
  induction rest with
  | nil =>
      intro buffer cur runs hchain hnil hlast
      cases cur with
      | none => simpa [splitLoop] using hchain
      | some s =>
          by_cases hb : buffer ≠ []
          · simp only [splitLoop, if_pos hb]
            rw [List.chain'_append]
            refine ⟨hchain, List.chain'_singleton _, ?_⟩
            intro x hx y hy
            rcases List.mem_singleton.1 (by simpa using hy) with rfl
            exact hlast s rfl x hx
          · simp only [splitLoop, if_neg hb]
            exact hchain
  | cons c cs ih =>
      intro buffer cur runs hchain hnil hlast
      cases cur with
      | none =>
          have hre : runs = [] := hnil rfl
          subst hre
          exact ih (buffer ++ [c]) (some (charScript c)) [] (by simp)
            (by intro h; cases h) (by intro t ht last hl; simp at hl)
      | some s =>
          by_cases hs : charScript c ≠ s
          · rw [show splitLoop (c :: cs) buffer (some s) runs =
              if charScript c ≠ s then
                splitLoop cs [c] (some (charScript c)) (runs ++ [⟨buffer, s⟩])
              else splitLoop cs (buffer ++ [c]) (some (charScript c)) runs from rfl,
              if_pos hs]
            refine ih [c] (some (charScript c)) (runs ++ [⟨buffer, s⟩]) ?_
              (by intro h; cases h) ?_
            · rw [List.chain'_append]
              refine ⟨hchain, List.chain'_singleton _, ?_⟩
              intro x hx y hy
              rcases List.mem_singleton.1 (by simpa using hy) with rfl
              exact hlast s rfl x hx
            · intro t ht last hl
              cases ht
              rw [List.getLast?_concat] at hl
              rcases Option.mem_some_iff.1 hl with rfl
              exact fun hcon => hs hcon.symm
          · rw [show splitLoop (c :: cs) buffer (some s) runs =
              if charScript c ≠ s then
                splitLoop cs [c] (some (charScript c)) (runs ++ [⟨buffer, s⟩])
              else splitLoop cs (buffer ++ [c]) (some (charScript c)) runs from rfl,
              if_neg hs]
            push_neg at hs
            exact ih (buffer ++ [c]) (some (charScript c)) runs hchain
              (by intro h; exact absurd (hlast s) (by intro _; cases h))
              (by intro t ht; cases ht; rw [hs]; exact hlast s rfl)

theorem charScript_cjk_iff (c : Char) : charScript c = .cjk ↔ isCjkCode c.toNat = true := by
  unfold charScript
  by_cases h : isCjkCode c.toNat = true
  · simp [h]
  · simp only [Bool.not_eq_true] at h
    simp [h]

/-- **C8**: script segmentation splits a caption into runs that concatenate
back to the original string; every run is non-empty and script-homogeneous;
adjacent runs carry different scripts (so runs are maximal); and a run is
tagged `cjk` — selecting the CJK-capable font family — exactly when all of
its code points are in the CJK ranges. -/
theorem splitTextRuns_spec (t : List Char) :
    ((splitTextRuns t).map TextRun.text).join = t ∧
    (∀ r ∈ splitTextRuns t, r.text ≠ [] ∧ ∀ c ∈ r.text, charScript c = r.script) ∧
    List.Chain' (fun a b => a.script ≠ b.script) (splitTextRuns t) ∧
    (∀ r ∈ splitTextRuns t, (r.script = .cjk ↔ ∀ c ∈ r.text, isCjkCode c.toNat = true)) := by
  have hgood : ∀ r ∈ splitTextRuns t, goodRun r := by
    unfold splitTextRuns
    split
    · simp
    · exact splitLoop_good t [] none [] (by simp) (fun _ => rfl)
        (by intro s hs; cases hs)
  refine ⟨?_, ?_, ?_, ?_⟩
  · unfold splitTextRuns
    split
    · simpa using (by assumption : t = []).symm
    · rw [splitLoop_join t [] none [] (fun _ => rfl)]
      simp
  · exact hgood
  · unfold splitTextRuns
    split
    · simp
    · exact splitLoop_chain t [] none [] (by simp) (fun _ => rfl)
        (by intro s hs; cases hs)
  · intro r hr
    obtain ⟨hne, hall⟩ := hgood r hr
    constructor
    · intro hscr c hc
      exact (charScript_cjk_iff c).1 (by rw [hall c hc, hscr])
    · intro hcjk
      obtain ⟨c, hc⟩ := List.exists_mem_of_ne_nil r.text hne
      rw [← hall c hc]
      exact (charScript_cjk_iff c).2 (hcjk c hc)

end ImgStamp

namespace ImgStamp

/-- Input to the content-bounds detector: the full-resolution dimensions of
the placed image and the downsampled raw pixel grid (the `sharp` resize to at
most 320px is an external collaborator; its output buffer is modelled as the
given `pixel` function, queried on the sample grid). Channel values are the
raw bytes `data[idx] / data[idx+1] / data[idx+2]`. -/
structure DetectInput where
  width : ℕ
  height : ℕ
  pixel : ℕ → ℕ → ℕ × ℕ × ℕ

/-- `scale = Math.min(1, maxSample / Math.max(width, height))` with
`maxSample = 320` (part_007 lines 311–312). -/
def sampleScale (i : DetectInput) : ℚ := min 1 (320 / ((max i.width i.height : ℕ) : ℚ))

/-- `sampleWidth = Math.max(1, Math.round(width * scale))` (part_007 line 313). -/
def sampleWidth (i : DetectInput) : ℕ :=
  (max 1 (jsRound ((i.width : ℚ) * sampleScale i))).toNat

/-- `sampleHeight = Math.max(1, Math.round(height * scale))` (part_007 line 314). -/
def sampleHeight (i : DetectInput) : ℕ :=
  (max 1 (jsRound ((i.height : ℚ) * sampleScale i))).toNat

/-- The assumed background: the four corner pixels averaged channel-wise
(part_007 lines 328–338). -/
def bgColor (i : DetectInput) : ℚ × ℚ × ℚ :=
  let c0 := i.pixel 0 0
  let c1 := i.pixel (sampleWidth i - 1) 0
  let c2 := i.pixel 0 (sampleHeight i - 1)
  let c3 := i.pixel (sampleWidth i - 1) (sampleHeight i - 1)
  (((c0.1 : ℚ) + c1.1 + c2.1 + c3.1) / 4,
   ((c0.2.1 : ℚ) + c1.2.1 + c2.2.1 + c3.2.1) / 4,
   ((c0.2.2 : ℚ) + c1.2.2 + c2.2.2 + c3.2.2) / 4)

/-- `brightness = (bg[0] + bg[1] + bg[2]) / 3` (part_007 line 339). -/
def brightness (i : DetectInput) : ℚ :=
  ((bgColor i).1 + (bgColor i).2.1 + (bgColor i).2.2) / 3

/-- The L1 distance of one sampled pixel from the background. -/
def pixelDiff (i : DetectInput) (x y : ℕ) : ℚ :=
  let p := i.pixel x y
  |(p.1 : ℚ) - (bgColor i).1| + |(p.2.1 : ℚ) - (bgColor i).2.1| +
    |(p.2.2 : ℚ) - (bgColor i).2.2|

/-- `variance`: mean corner L1 distance from the background (part_007
lines 340–345). -/
def cornerVariance (i : DetectInput) : ℚ :=
  (pixelDiff i 0 0 + pixelDiff i (sampleWidth i - 1) 0 +
    pixelDiff i 0 (sampleHeight i - 1) +
    pixelDiff i (sampleWidth i - 1) (sampleHeight i - 1)) / 4

/-- `brightness < 230 || variance > 12` — the clean-light-background check
(part_007 line 347). -/
def bvAbort (i : DetectInput) : Prop := brightness i < 230 ∨ 12 < cornerVariance i

instance (i : DetectInput) : Decidable (bvAbort i) := by
  unfold bvAbort; infer_instance

/-- `diff > threshold` with `threshold = 60` (part_007 lines 351, 364). -/
def overPixel (i : DetectInput) (x y : ℕ) : Prop := 60 < pixelDiff i x y

instance (i : DetectInput) (x y : ℕ) : Decidable (overPixel i x y) := by
  unfold overPixel; infer_instance

/-- One step of the scan loop body (part_007 lines 364–369): widen the
running bounding box when the pixel is over threshold. -/
def scanStep (i : DetectInput) (acc : ℤ × ℤ × ℤ × ℤ) (p : ℕ × ℕ) : ℤ × ℤ × ℤ × ℤ :=
  if overPixel i p.1 p.2 then
    (min acc.1 (p.1 : ℤ), min acc.2.1 (p.2 : ℤ),
     max acc.2.2.1 (p.1 : ℤ), max acc.2.2.2 (p.2 : ℤ))
  else acc

/-- The pixels visited by the nested scan loops, in loop order (`y` outer,
`x` inner; part_007 lines 357–358). -/
def scanPairs (i : DetectInput) : List (ℕ × ℕ) :=
  (List.range (sampleHeight i)).bind fun y =>
    (List.range (sampleWidth i)).map fun x => (x, y)

/-- The scan accumulator after the loops, started from
`(minX, minY, maxX, maxY) = (sampleWidth, sampleHeight, -1, -1)`
(part_007 lines 352–371). -/
def scanResult (i : DetectInput) : ℤ × ℤ × ℤ × ℤ :=
  (scanPairs i).foldl (scanStep i) (((sampleWidth i : ℤ), (sampleHeight i : ℤ), -1, -1))

/-- `detectContentBounds` (part_007 lines 306–400). `0.02` is the exact
rational `1/50`. -/
def detectContentBounds (i : DetectInput) : Option Rect :=
  if bvAbort i then none
  else
    let r := scanResult i
    if r.2.2.1 < r.1 ∨ r.2.2.2 < r.2.1 then none
    else
      let scaleX : ℚ := (i.width : ℚ) / (sampleWidth i : ℚ)
      let scaleY : ℚ := (i.height : ℚ) / (sampleHeight i : ℚ)
      let x : ℤ := max 0 ⌊(r.1 : ℚ) * scaleX⌋
      let y : ℤ := max 0 ⌊(r.2.1 : ℚ) * scaleY⌋
      let w : ℤ := min (i.width : ℤ) ⌈((r.2.2.1 - r.1 + 1 : ℤ) : ℚ) * scaleX⌉
      let h : ℤ := min (i.height : ℤ) ⌈((r.2.2.2 - r.2.1 + 1 : ℤ) : ℚ) * scaleY⌉
      if (i.width : ℚ) * (1 / 50) < ((x : ℤ) : ℚ) ∨
          (i.width : ℚ) * (1 / 50) < (((i.width : ℤ) - (x + w) : ℤ) : ℚ) ∨
          (i.height : ℚ) * (1 / 50) < ((y : ℤ) : ℚ) ∨
          (i.height : ℚ) * (1 / 50) < (((i.height : ℤ) - (y + h) : ℤ) : ℚ) then
        some ⟨x, y, w, h⟩
      else none

/-- `(mnX, mnY, mxX, mxY)` is the bounding box of the over-threshold sampled
pixels: attained on every side and enclosing every over-threshold pixel. -/
def isBBoxOf (i : DetectInput) (mnX mnY mxX mxY : ℕ) : Prop :=
  mnX < sampleWidth i ∧ mnY < sampleHeight i ∧
  mxX < sampleWidth i ∧ mxY < sampleHeight i ∧
  (∃ y, y < sampleHeight i ∧ overPixel i mnX y) ∧
  (∃ x, x < sampleWidth i ∧ overPixel i x mnY) ∧
  (∃ y, y < sampleHeight i ∧ overPixel i mxX y) ∧
  (∃ x, x < sampleWidth i ∧ overPixel i x mxY) ∧
  (∀ x y, x < sampleWidth i → y < sampleHeight i → overPixel i x y →
    mnX ≤ x ∧ x ≤ mxX ∧ mnY ≤ y ∧ y ≤ mxY)

/-- The sampled bounding box scaled back to full-resolution coordinates
(part_007 lines 377–382). -/
def scaledBoxOf (i : DetectInput) (mnX mnY mxX mxY : ℕ) : Rect :=
  let scaleX : ℚ := (i.width : ℚ) / (sampleWidth i : ℚ)
  let scaleY : ℚ := (i.height : ℚ) / (sampleHeight i : ℚ)
  ⟨max 0 ⌊(mnX : ℚ) * scaleX⌋,
   max 0 ⌊(mnY : ℚ) * scaleY⌋,
   min (i.width : ℤ) ⌈((mxX : ℚ) - (mnX : ℚ) + 1) * scaleX⌉,
   min (i.height : ℤ) ⌈((mxY : ℚ) - (mnY : ℚ) + 1) * scaleY⌉⟩

/-- All four full-resolution margins are at most 2% of the respective
dimension (the negation of the code's `hasInset`). -/
def marginsAllSmall (i : DetectInput) (b : Rect) : Prop :=
  ((b.x : ℤ) : ℚ) ≤ (i.width : ℚ) * (1 / 50) ∧
  (((i.width : ℤ) - (b.x + b.width) : ℤ) : ℚ) ≤ (i.width : ℚ) * (1 / 50) ∧
  ((b.y : ℤ) : ℚ) ≤ (i.height : ℚ) * (1 / 50) ∧
  (((i.height : ℤ) - (b.y + b.height) : ℤ) : ℚ) ≤ (i.height : ℚ) * (1 / 50)

instance (i : DetectInput) (b : Rect) : Decidable (marginsAllSmall i b) := by
  unfold marginsAllSmall; infer_instance

end ImgStamp

namespace ImgStamp

theorem scanPairs_mem (i : DetectInput) (p : ℕ × ℕ) :
    p ∈ scanPairs i ↔ p.1 < sampleWidth i ∧ p.2 < sampleHeight i := by
  unfold scanPairs
  constructor
  · intro hp
    rcases List.mem_bind.1 hp with ⟨y, hy, hmem⟩
    rcases List.mem_map.1 hmem with ⟨x, hx, rfl⟩
    exact ⟨List.mem_range.1 hx, List.mem_range.1 hy⟩
  · intro ⟨hx, hy⟩
    refine List.mem_bind.2 ⟨p.2, List.mem_range.2 hy, ?_⟩
    exact List.mem_map.2 ⟨p.1, List.mem_range.2 hx, rfl⟩

theorem foldl_min_le_init : ∀ (l : List ℤ) (a : ℤ), l.foldl min a ≤ a := by
  intro l
  induction l with
  | nil => intro a; exact le_refl a
  | cons b l ih => intro a; exact le_trans (ih (min a b)) (min_le_left a b)

theorem foldl_min_le_mem : ∀ (l : List ℤ) (a x : ℤ), x ∈ l → l.foldl min a ≤ x := by
  intro l
  induction l with
  | nil => intro a x hx; cases hx
  | cons b l ih =>
      intro a x hx
      rcases List.mem_cons.1 hx with rfl | hx
      · exact le_trans (foldl_min_le_init l (min a x)) (min_le_right a x)
      · exact ih (min a b) x hx

theorem foldl_min_eq_or_mem : ∀ (l : List ℤ) (a : ℤ),
    l.foldl min a = a ∨ l.foldl min a ∈ l := by
  intro l
  induction l with
  | nil => intro a; exact Or.inl rfl
  | cons b l ih =>
      intro a
      rcases ih (min a b) with h | h
      · rcases min_choice a b with hm | hm
        · exact Or.inl (by rw [List.foldl_cons, h, hm])
        · exact Or.inr (by rw [List.foldl_cons, h, hm]; exact List.mem_cons_self b l)
      · exact Or.inr (List.mem_cons_of_mem b h)

theorem foldl_max_ge_init : ∀ (l : List ℤ) (a : ℤ), a ≤ l.foldl max a := by
  intro l
  induction l with
  | nil => intro a; exact le_refl a
  | cons b l ih => intro a; exact le_trans (le_max_left a b) (ih (max a b))

theorem foldl_max_ge_mem : ∀ (l : List ℤ) (a x : ℤ), x ∈ l → x ≤ l.foldl max a := by
  intro l
  induction l with
  | nil => intro a x hx; cases hx
  | cons b l ih =>
      intro a x hx
      rcases List.mem_cons.1 hx with rfl | hx
      · exact le_trans (le_max_right a x) (foldl_max_ge_init l (max a x))
      · exact ih (max a b) x hx

theorem foldl_max_eq_or_mem : ∀ (l : List ℤ) (a : ℤ),
    l.foldl max a = a ∨ l.foldl max a ∈ l := by
  intro l
  induction l with
  | nil => intro a; exact Or.inl rfl
  | cons b l ih =>
      intro a
      rcases ih (max a b) with h | h
      · rcases max_choice a b with hm | hm
        · exact Or.inl (by rw [List.foldl_cons, h, hm])
        · exact Or.inr (by rw [List.foldl_cons, h, hm]; exact List.mem_cons_self b l)
      · exact Or.inr (List.mem_cons_of_mem b h)

theorem foldl_scanStep (i : DetectInput) :
    ∀ (L : List (ℕ × ℕ)) (acc : ℤ × ℤ × ℤ × ℤ),
      L.foldl (scanStep i) acc =
        (((L.filter fun p => decide (overPixel i p.1 p.2)).map
            fun p => ((p.1 : ℕ) : ℤ)).foldl min acc.1,
         ((L.filter fun p => decide (overPixel i p.1 p.2)).map
            fun p => ((p.2 : ℕ) : ℤ)).foldl min acc.2.1,
         ((L.filter fun p => decide (overPixel i p.1 p.2)).map
            fun p => ((p.1 : ℕ) : ℤ)).foldl max acc.2.2.1,
         ((L.filter fun p => decide (overPixel i p.1 p.2)).map
            fun p => ((p.2 : ℕ) : ℤ)).foldl max acc.2.2.2) := by
  intro L
  induction L with
  | nil => intro acc; rfl
  | cons p L ih =>
      intro acc
      by_cases h : overPixel i p.1 p.2
      · rw [List.foldl_cons, show scanStep i acc p =
          (min acc.1 (p.1 : ℤ), min acc.2.1 (p.2 : ℤ),
           max acc.2.2.1 (p.1 : ℤ), max acc.2.2.2 (p.2 : ℤ)) from if_pos h, ih]
        simp [List.filter_cons, h]
      · rw [List.foldl_cons, show scanStep i acc p = acc from if_neg h, ih]
        simp [List.filter_cons, h]

end ImgStamp

namespace ImgStamp

theorem scanResult_empty (i : DetectInput)
    (h : ∀ x y, x < sampleWidth i → y < sampleHeight i → ¬overPixel i x y) :
    scanResult i = ((sampleWidth i : ℤ), (sampleHeight i : ℤ), -1, -1) := by
  unfold scanResult
  rw [foldl_scanStep]
  have hfil : (scanPairs i).filter (fun p => decide (overPixel i p.1 p.2)) = [] := by
    rw [List.filter_eq_nil]
    intro p hp
    have hr := (scanPairs_mem i p).1 hp
    simpa using h p.1 p.2 hr.1 hr.2
  rw [hfil]
  rfl

theorem scanResult_spec (i : DetectInput) (x0 y0 : ℕ)
    (hx0 : x0 < sampleWidth i) (hy0 : y0 < sampleHeight i) (hov : overPixel i x0 y0) :
    ∃ mnX mnY mxX mxY : ℕ,
      scanResult i = ((mnX : ℤ), (mnY : ℤ), (mxX : ℤ), (mxY : ℤ)) ∧
      isBBoxOf i mnX mnY mxX mxY := by
  have hfold := foldl_scanStep i (scanPairs i)
    (((sampleWidth i : ℤ), (sampleHeight i : ℤ), -1, -1))
  set F := (scanPairs i).filter (fun p => decide (overPixel i p.1 p.2)) with hF
  have hmemF : ∀ p : ℕ × ℕ, p ∈ F ↔
      (p.1 < sampleWidth i ∧ p.2 < sampleHeight i) ∧ overPixel i p.1 p.2 := by
    intro p
    rw [hF, List.mem_filter, scanPairs_mem]
    simp
  have hp0 : (⟨x0, y0⟩ : ℕ × ℕ) ∈ F := (hmemF ⟨x0, y0⟩).2 ⟨⟨hx0, hy0⟩, hov⟩
  have hx0X : ((x0 : ℕ) : ℤ) ∈ F.map fun p => ((p.1 : ℕ) : ℤ) :=
    List.mem_map.2 ⟨⟨x0, y0⟩, hp0, rfl⟩
  have hy0Y : ((y0 : ℕ) : ℤ) ∈ F.map fun p => ((p.2 : ℕ) : ℤ) :=
    List.mem_map.2 ⟨⟨x0, y0⟩, hp0, rfl⟩
  -- the four accumulated components
  have hminX : (scanResult i).1 =
      (F.map fun p => ((p.1 : ℕ) : ℤ)).foldl min (sampleWidth i : ℤ) := by
    unfold scanResult; rw [hfold]
  have hminY : (scanResult i).2.1 =
      (F.map fun p => ((p.2 : ℕ) : ℤ)).foldl min (sampleHeight i : ℤ) := by
    unfold scanResult; rw [hfold]
  have hmaxX : (scanResult i).2.2.1 =
      (F.map fun p => ((p.1 : ℕ) : ℤ)).foldl max (-1) := by
    unfold scanResult; rw [hfold]
  have hmaxY : (scanResult i).2.2.2 =
      (F.map fun p => ((p.2 : ℕ) : ℤ)).foldl max (-1) := by
    unfold scanResult; rw [hfold]
  -- each component is attained by an over-threshold pixel
  have hminX_mem : (scanResult i).1 ∈ F.map fun p => ((p.1 : ℕ) : ℤ) := by
    rcases foldl_min_eq_or_mem (F.map fun p => ((p.1 : ℕ) : ℤ)) (sampleWidth i : ℤ) with h | h
    · exfalso
      have hle := foldl_min_le_mem (F.map fun p => ((p.1 : ℕ) : ℤ)) (sampleWidth i : ℤ) _ hx0X
      rw [h] at hle
      exact absurd (lt_of_le_of_lt hle (by exact_mod_cast hx0)) (lt_irrefl _)
    · rw [hminX]; exact h
  have hminY_mem : (scanResult i).2.1 ∈ F.map fun p => ((p.2 : ℕ) : ℤ) := by
    rcases foldl_min_eq_or_mem (F.map fun p => ((p.2 : ℕ) : ℤ)) (sampleHeight i : ℤ) with h | h
    · exfalso
      have hle := foldl_min_le_mem (F.map fun p => ((p.2 : ℕ) : ℤ)) (sampleHeight i : ℤ) _ hy0Y
      rw [h] at hle
      exact absurd (lt_of_le_of_lt hle (by exact_mod_cast hy0)) (lt_irrefl _)
    · rw [hminY]; exact h
  have hmaxX_mem : (scanResult i).2.2.1 ∈ F.map fun p => ((p.1 : ℕ) : ℤ) := by
    rcases foldl_max_eq_or_mem (F.map fun p => ((p.1 : ℕ) : ℤ)) (-1) with h | h
    · exfalso
      have hge := foldl_max_ge_mem (F.map fun p => ((p.1 : ℕ) : ℤ)) (-1) _ hx0X
      rw [h] at hge
      exact absurd (le_trans (by positivity) hge) (by norm_num)
    · rw [hmaxX]; exact h
  have hmaxY_mem : (scanResult i).2.2.2 ∈ F.map fun p => ((p.2 : ℕ) : ℤ) := by
    rcases foldl_max_eq_or_mem (F.map fun p => ((p.2 : ℕ) : ℤ)) (-1) with h | h
    · exfalso
      have hge := foldl_max_ge_mem (F.map fun p => ((p.2 : ℕ) : ℤ)) (-1) _ hy0Y
      rw [h] at hge
      exact absurd (le_trans (by positivity) hge) (by norm_num)
    · rw [hmaxY]; exact h
  rcases List.mem_map.1 hminX_mem with ⟨pa, hpa, hpa1⟩
  rcases List.mem_map.1 hminY_mem with ⟨pb, hpb, hpb1⟩
  rcases List.mem_map.1 hmaxX_mem with ⟨pc, hpc, hpc1⟩
  rcases List.mem_map.1 hmaxY_mem with ⟨pd, hpd, hpd1⟩
  obtain ⟨⟨hpa_w, hpa_h⟩, hpa_ov⟩ := (hmemF pa).1 hpa
  obtain ⟨⟨hpb_w, hpb_h⟩, hpb_ov⟩ := (hmemF pb).1 hpb
  obtain ⟨⟨hpc_w, hpc_h⟩, hpc_ov⟩ := (hmemF pc).1 hpc
  obtain ⟨⟨hpd_w, hpd_h⟩, hpd_ov⟩ := (hmemF pd).1 hpd
  refine ⟨pa.1, pb.2, pc.1, pd.2, ?_, ?_⟩
  · have e1 : (scanResult i).1 = ((pa.1 : ℕ) : ℤ) := hpa1.symm
    have e2 : (scanResult i).2.1 = ((pb.2 : ℕ) : ℤ) := hpb1.symm
    have e3 : (scanResult i).2.2.1 = ((pc.1 : ℕ) : ℤ) := hpc1.symm
    have e4 : (scanResult i).2.2.2 = ((pd.2 : ℕ) : ℤ) := hpd1.symm
    exact Prod.ext e1 (Prod.ext e2 (Prod.ext e3 e4))
  · refine ⟨hpa_w, hpb_h, hpc_w, hpd_h,
      ⟨pa.2, hpa_h, hpa_ov⟩, ⟨pb.1, hpb_w, hpb_ov⟩,
      ⟨pc.2, hpc_h, hpc_ov⟩, ⟨pd.1, hpd_w, hpd_ov⟩, ?_⟩
    intro x y hx hy hxy
    have hmemp : (⟨x, y⟩ : ℕ × ℕ) ∈ F := (hmemF ⟨x, y⟩).2 ⟨⟨hx, hy⟩, hxy⟩
    have hxX : ((x : ℕ) : ℤ) ∈ F.map fun p => ((p.1 : ℕ) : ℤ) :=
      List.mem_map.2 ⟨⟨x, y⟩, hmemp, rfl⟩
    have hyY : ((y : ℕ) : ℤ) ∈ F.map fun p => ((p.2 : ℕ) : ℤ) :=
      List.mem_map.2 ⟨⟨x, y⟩, hmemp, rfl⟩
    have b1 := foldl_min_le_mem _ (sampleWidth i : ℤ) _ hxX
    have b2 := foldl_min_le_mem _ (sampleHeight i : ℤ) _ hyY
    have b3 := foldl_max_ge_mem _ (-1 : ℤ) _ hxX
    have b4 := foldl_max_ge_mem _ (-1 : ℤ) _ hyY
    rw [← hminX, hpa1.symm] at b1
    rw [← hminY, hpb1.symm] at b2
    rw [← hmaxX, hpc1.symm] at b3
    rw [← hmaxY, hpd1.symm] at b4
    exact ⟨by exact_mod_cast b1, by exact_mod_cast b3, by exact_mod_cast b2,
      by exact_mod_cast b4⟩

end ImgStamp

namespace ImgStamp

theorem isBBoxOf_unique (i : DetectInput) {a b c d a' b' c' d' : ℕ}
    (h1 : isBBoxOf i a b c d) (h2 : isBBoxOf i a' b' c' d') :
    a = a' ∧ b = b' ∧ c = c' ∧ d = d' := by
  obtain ⟨haw, hbh, hcw, hdh, ⟨ya, hya, hova⟩, ⟨xb, hxb, hovb⟩, ⟨yc, hyc, hovc⟩,
    ⟨xd, hxd, hovd⟩, hencl⟩ := h1
  obtain ⟨haw', hbh', hcw', hdh', ⟨ya', hya', hova'⟩, ⟨xb', hxb', hovb'⟩,
    ⟨yc', hyc', hovc'⟩, ⟨xd', hxd', hovd'⟩, hencl'⟩ := h2
  have e1 : a ≤ a' := (hencl a' ya' haw' hya' hova').1
  have e1' : a' ≤ a := (hencl' a ya haw hya hova).1
  have e2 : b ≤ b' := (hencl xb' b' hxb' hbh' hovb').2.2.1
  have e2' : b' ≤ b := (hencl' xb b hxb hbh hovb).2.2.1
  have e3 : c' ≤ c := (hencl c' yc' hcw' hyc' hovc').2.1
  have e3' : c ≤ c' := (hencl' c yc hcw hyc hovc).2.1
  have e4 : d' ≤ d := (hencl xd' d' hxd' hdh' hovd').2.2.2
  have e4' : d ≤ d' := (hencl' xd d hxd hdh hovd).2.2.2
  exact ⟨le_antisymm e1 e1', le_antisymm e2 e2', le_antisymm e3' e3, le_antisymm e4' e4⟩

theorem detect_of_scan (i : DetectInput) (mnX mnY mxX mxY : ℕ) (hab : ¬bvAbort i)
    (hscan : scanResult i = ((mnX : ℤ), (mnY : ℤ), (mxX : ℤ), (mxY : ℤ)))
    (hle : mnX ≤ mxX) (hle' : mnY ≤ mxY) :
    detectContentBounds i =
      if marginsAllSmall i (scaledBoxOf i mnX mnY mxX mxY) then none
      else some (scaledBoxOf i mnX mnY mxX mxY) := by
  have hcond : ¬((scanResult i).2.2.1 < (scanResult i).1 ∨
      (scanResult i).2.2.2 < (scanResult i).2.1) := by
    rw [hscan]
    push_neg
    exact ⟨show ((mnX : ℤ)) ≤ ((mxX : ℤ)) by exact_mod_cast hle,
      show ((mnY : ℤ)) ≤ ((mxY : ℤ)) by exact_mod_cast hle'⟩
  unfold detectContentBounds
  rw [if_neg hab, if_neg hcond, hscan]
  have hx : (max 0 ⌊(((mnX : ℤ) : ℚ)) * ((i.width : ℚ) / (sampleWidth i : ℚ))⌋ : ℤ) =
      (scaledBoxOf i mnX mnY mxX mxY).x := by
    show _ = max 0 ⌊(mnX : ℚ) * ((i.width : ℚ) / (sampleWidth i : ℚ))⌋
    norm_cast
  have hy : (max 0 ⌊(((mnY : ℤ) : ℚ)) * ((i.height : ℚ) / (sampleHeight i : ℚ))⌋ : ℤ) =
      (scaledBoxOf i mnX mnY mxX mxY).y := by
    show _ = max 0 ⌊(mnY : ℚ) * ((i.height : ℚ) / (sampleHeight i : ℚ))⌋
    norm_cast
  have hwd : (min (i.width : ℤ)
      ⌈((((mxX : ℤ) - (mnX : ℤ) + 1 : ℤ)) : ℚ) * ((i.width : ℚ) / (sampleWidth i : ℚ))⌉ : ℤ) =
      (scaledBoxOf i mnX mnY mxX mxY).width := by
    show _ = min (i.width : ℤ) ⌈((mxX : ℚ) - (mnX : ℚ) + 1) * ((i.width : ℚ) / (sampleWidth i : ℚ))⌉
    norm_cast
  have hht : (min (i.height : ℤ)
      ⌈((((mxY : ℤ) - (mnY : ℤ) + 1 : ℤ)) : ℚ) * ((i.height : ℚ) / (sampleHeight i : ℚ))⌉ : ℤ) =
      (scaledBoxOf i mnX mnY mxX mxY).height := by
    show _ = min (i.height : ℤ) ⌈((mxY : ℚ) - (mnY : ℚ) + 1) * ((i.height : ℚ) / (sampleHeight i : ℚ))⌉
    norm_cast
  simp only [hx, hy, hwd, hht]
  by_cases hB : marginsAllSmall i (scaledBoxOf i mnX mnY mxX mxY)
  · rw [if_pos hB]
    obtain ⟨b1, b2, b3, b4⟩ := hB
    rw [if_neg]
    intro hA
    rcases hA with h | h | h | h
    · exact absurd h (not_lt.2 b1)
    · exact absurd h (not_lt.2 b2)
    · exact absurd h (not_lt.2 b3)
    · exact absurd h (not_lt.2 b4)
  · rw [if_neg hB, if_pos]
    by_contra hA
    push_neg at hA
    exact hB ⟨hA.1, hA.2.1, hA.2.2.1, hA.2.2.2⟩

end ImgStamp

namespace ImgStamp

/-- **C6**: the content-bounds detector returns `none` exactly when the
corner background is not a clean light one (average brightness below 230 or
corner variance above 12), or no sampled pixel differs from the background by
more than the fixed threshold 60, or the margins of the detected box are at
most 2% of the respective dimension on all four sides; otherwise it returns
the bounding box of the over-threshold pixels scaled back to full-resolution
coordinates. -/
theorem detect_bounds_spec (i : DetectInput) :
    (detectContentBounds i = none ↔
      bvAbort i ∨
      (∀ x y, x < sampleWidth i → y < sampleHeight i → ¬overPixel i x y) ∨
      (∃ mnX mnY mxX mxY, isBBoxOf i mnX mnY mxX mxY ∧
        marginsAllSmall i (scaledBoxOf i mnX mnY mxX mxY))) ∧
    (∀ b, detectContentBounds i = some b →
      ¬bvAbort i ∧
      ∃ mnX mnY mxX mxY, isBBoxOf i mnX mnY mxX mxY ∧
        b = scaledBoxOf i mnX mnY mxX mxY ∧ ¬marginsAllSmall i b) := by
  by_cases hab : bvAbort i
  · have hdet : detectContentBounds i = none := by
      unfold detectContentBounds
      rw [if_pos hab]
    constructor
    · rw [hdet]
      exact iff_of_true rfl (Or.inl hab)
    · intro b hb
      rw [hdet] at hb
      cases hb
  · by_cases hne : ∃ x y, x < sampleWidth i ∧ y < sampleHeight i ∧ overPixel i x y
    · obtain ⟨x0, y0, hx0, hy0, hov⟩ := hne
      obtain ⟨mnX, mnY, mxX, mxY, hscan, hbox⟩ := scanResult_spec i x0 y0 hx0 hy0 hov
      have hb0 := hbox.2.2.2.2.2.2.2.2 x0 y0 hx0 hy0 hov
      have hkey := detect_of_scan i mnX mnY mxX mxY hab hscan
        (le_trans hb0.1 hb0.2.1) (le_trans hb0.2.2.1 hb0.2.2.2)
      constructor
      · rw [hkey]
        by_cases hm : marginsAllSmall i (scaledBoxOf i mnX mnY mxX mxY)
        · rw [if_pos hm]
          exact iff_of_true rfl (Or.inr (Or.inr ⟨mnX, mnY, mxX, mxY, hbox, hm⟩))
        · rw [if_neg hm]
          constructor
          · intro hcon
            cases hcon
          · intro hdisj
            rcases hdisj with h | h | h
            · exact absurd h hab
            · exact absurd hov (h x0 y0 hx0 hy0)
            · exfalso
              obtain ⟨a, b, c, d, hbox', hm'⟩ := h
              obtain ⟨ea, eb, ec, ed⟩ := isBBoxOf_unique i hbox' hbox
              subst ea; subst eb; subst ec; subst ed
              exact hm hm'
      · intro b hb
        rw [hkey] at hb
        by_cases hm : marginsAllSmall i (scaledBoxOf i mnX mnY mxX mxY)
        · rw [if_pos hm] at hb
          cases hb
        · rw [if_neg hm] at hb
          have hbe : b = scaledBoxOf i mnX mnY mxX mxY := (Option.some_inj.1 hb).symm
          subst hbe
          exact ⟨hab, mnX, mnY, mxX, mxY, hbox, rfl, hm⟩
    · push_neg at hne
      have hscan := scanResult_empty i fun x y hx hy => hne x y hx hy
      have hdet : detectContentBounds i = none := by
        unfold detectContentBounds
        rw [if_neg hab]
        have hcond : ((scanResult i).2.2.1 < (scanResult i).1 ∨
            (scanResult i).2.2.2 < (scanResult i).2.1) := by
          rw [hscan]
          exact Or.inl (lt_of_lt_of_le (by norm_num) (Int.natCast_nonneg _))
        rw [if_pos hcond]
      constructor
      · rw [hdet]
        exact iff_of_true rfl (Or.inr (Or.inl fun x y hx hy => hne x y hx hy))
      · intro b hb
        rw [hdet] at hb
        cases hb

end ImgStamp

namespace ImgStamp

/-- Caption metadata `{ date, location, description }` (part_007 line 22). -/
structure CaptionMeta where
  date : Option String
  location : String
  description : String
  deriving DecidableEq, Repr

/-- Output format `'jpeg' | 'png'`. -/
inductive ImgFormat where
  | jpeg | png
  deriving DecidableEq, Repr

/-- Options of `buildStampedImage` (part_007 line 531). -/
structure RenderOpts where
  includeText : Bool
  format : ImgFormat
  quality : Option ℕ
  deriving DecidableEq, Repr

/-- Outcomes of the external `sharp` collaborator for one render:
`meta` is the result of `readSourceInfo` (part_007 lines 147–157 — metadata
exceptions and missing dimensions both collapse to `null` there, exactly as
modelled); `decodeOk` says whether decoding the source for the resize step
succeeds (the `sharp(sourcePath).resize(...).toBuffer()` call rejects iff the
source cannot be decoded); `detect` is the outcome of
`detectContentBounds` on the placed buffer — a result, or a thrown error. -/
structure RenderEnv where
  meta : Option SourceInfo
  decodeOk : Bool
  detect : Except Unit (Option Rect)

/-- The only failure `buildStampedImage` can surface: the source decode
rejection. -/
inductive RenderError where
  | decodeError
  deriving DecidableEq, Repr

/-- A resize request handed to the codec (the resized bytes are a pure
function of the source and this request). -/
inductive ResizeSpec where
  | fill (width height : ℤ)
  | contain (width height : ℤ)
  deriving DecidableEq, Repr

/-- One composite overlay: the placed photo, or the caption SVG layer.
`buildPreviewSvg` (part_007 lines 442–525) is a pure function of the carried
arguments, so the rendered bytes are a function of this description. -/
inductive Overlay where
  | image (spec : ResizeSpec) (top left : ℤ)
  | textLayer (meta : CaptionMeta) (layout : Layout) (canvas : Size)
      (imageRect : Rect) (contentRect : Option Rect)
  deriving DecidableEq

/-- The encode step: `png()` or `jpeg({ quality: quality ?? 90 })`
(part_007 lines 597–600). -/
inductive EncodeSpec where
  | png
  | jpeg (quality : ℕ)
  deriving DecidableEq, Repr

/-- The composite description whose deterministic rasterization/encoding is
the returned byte buffer: white canvas, overlays in order, encode request. -/
structure RenderOutput where
  canvas : Size
  overlays : List Overlay
  encode : EncodeSpec
  deriving DecidableEq

def encodeOf (opts : RenderOpts) : EncodeSpec :=
  match opts.format with
  | .png => .png
  | .jpeg => .jpeg (opts.quality.getD 90)

/-- `buildStampedImage` (part_007 lines 527–601), over the external outcomes
in `env`. The `catch` around `detectContentBounds` (lines 572–588) maps a
thrown detection error to `contentRect = null`. Rasterization of the final
composite and the encode step are deterministic operations on the returned
description and are modelled as total. -/
def buildStampedImage (env : RenderEnv) (meta : CaptionMeta) (size : Size)
    (opts : RenderOpts) : Except RenderError RenderOutput :=
  let sourceInfo := env.meta
  let canvasSize := resolveCanvasSize size sourceInfo
  let mode := resolveLayoutMode opts.includeText sourceInfo
  let layout := buildLayout canvasSize opts.includeText mode
  let step : Except RenderError (Rect × ResizeSpec) :=
    match sourceInfo with
    | some si =>
        let typography := getTypography canvasSize
        let r := resolveImageRect si layout typography.fontSize
        if env.decodeOk then .ok (r, .fill r.width r.height)
        else .error .decodeError
    | none =>
        if env.decodeOk then
          .ok (layout.imageArea,
            .contain layout.imageArea.width layout.imageArea.height)
        else .error .decodeError
  match step with
  | .error e => .error e
  | .ok (imageRect, resized) =>
      let overlays0 := [Overlay.image resized imageRect.y imageRect.x]
      let overlays :=
        if opts.includeText then
          let contentRect : Option Rect :=
            match env.detect with
            | .ok (some cb) =>
                some ⟨imageRect.x + cb.x, imageRect.y + cb.y, cb.width, cb.height⟩
            | .ok none => none
            | .error _ => none
          overlays0 ++
            [Overlay.textLayer meta layout canvasSize imageRect contentRect]
        else overlays0
      .ok ⟨canvasSize, overlays, encodeOf opts⟩

/-- **C7**: a single render fails — always with the decode error — exactly
when the source cannot be decoded or its metadata cannot be read (with
`sharp`, metadata readability and decodability coincide: the hypothesis),
and in no other case; any thrown error inside content-bounds detection is
caught and yields exactly the output of a run whose detection found
nothing, so bounds detection never fails the call. -/
theorem render_fails_iff (env : RenderEnv) (meta : CaptionMeta) (size : Size)
    (opts : RenderOpts) (hcouple : env.meta.isSome = env.decodeOk) :
    (buildStampedImage env meta size opts = .error .decodeError ↔
      (env.decodeOk = false ∨ env.meta = none)) ∧
    (∀ e : Unit,
      buildStampedImage { env with detect := .error e } meta size opts =
        buildStampedImage { env with detect := .ok none } meta size opts) := by
  obtain ⟨m, d, det⟩ := env
  constructor
  · cases m with
    | none =>
        cases d with
        | false => simp [buildStampedImage]
        | true => simp at hcouple
    | some si =>
        cases d with
        | false => simp at hcouple
        | true => simp [buildStampedImage]
  · intro e
    cases m with
    | none =>
        cases d with
        | false => rfl
        | true =>
            simp only [buildStampedImage]
    | some si =>
        cases d with
        | false => rfl
        | true =>
            simp only [buildStampedImage]

/-- Witness for `render_fails_iff`: an undecodable source (no metadata, no
decode) makes the render fail with the decode error. -/
theorem render_fails_iff_witness :
    buildStampedImage ⟨none, false, .ok none⟩ ⟨none, "", ""⟩ ⟨1500, 1050⟩
      ⟨true, .jpeg, none⟩ = .error .decodeError :=
  (render_fails_iff ⟨none, false, .ok none⟩ ⟨none, "", ""⟩ ⟨1500, 1050⟩
    ⟨true, .jpeg, none⟩ rfl).1.mpr (Or.inl rfl)

/-- **C10**: with `includeText = false` the output composite — and therefore
the encoded byte buffer, a deterministic function of it — does not depend on
the caption metadata, and content-bounds detection is never consulted: the
result is also independent of the detector's outcome. -/
theorem render_meta_independent (env : RenderEnv) (size : Size) (fmt : ImgFormat)
    (q : Option ℕ) (m1 m2 : CaptionMeta) :
    buildStampedImage env m1 size ⟨false, fmt, q⟩ =
      buildStampedImage env m2 size ⟨false, fmt, q⟩ ∧
    (∀ d1 d2 : Except Unit (Option Rect),
      buildStampedImage { env with detect := d1 } m1 size ⟨false, fmt, q⟩ =
        buildStampedImage { env with detect := d2 } m1 size ⟨false, fmt, q⟩) := by
  obtain ⟨m, d, det⟩ := env
  constructor
  · cases m <;> cases d <;> rfl
  · intro d1 d2
    cases m <;> cases d <;> rfl

end ImgStamp

namespace ImgStamp

/-- Witness for `export_processes_all_items`: a two-item run (one succeeding,
one failing) completes with `exported + failed = 2`. -/
theorem export_processes_all_items_witness :
    (exportStart (fun i => i.relativePath == "a.jpg")
      [⟨"a.jpg", "a.jpg"⟩, ⟨"missing.png", "missing.png"⟩]).exported +
      (exportStart (fun i => i.relativePath == "a.jpg")
        [⟨"a.jpg", "a.jpg"⟩, ⟨"missing.png", "missing.png"⟩]).failed = 2 :=
  (export_processes_all_items (fun i => i.relativePath == "a.jpg")
    [⟨"a.jpg", "a.jpg"⟩, ⟨"missing.png", "missing.png"⟩]).2.2.1

/-- Witness for `canvas_matches_preset` at preset `6L` with a 4000×3000
landscape source. -/
theorem canvas_matches_preset_witness :
    resolveCanvasSize (EXPORT_SIZE_PX .s6L) (some ⟨4000, 3000⟩) = ⟨1800, 1350⟩ :=
  (canvas_matches_preset .s6L (some ⟨4000, 3000⟩)).2.2.2

/-- Witness for `splitTextRuns_spec` on a mixed Latin/CJK caption. -/
theorem splitTextRuns_spec_witness :
    ((splitTextRuns (['A', '中'] : List Char)).map TextRun.text).join =
      (['A', '中'] : List Char) :=
  (splitTextRuns_spec (['A', '中'] : List Char)).1

/-- Witness for `detect_bounds_spec`: a uniform white fixture with no inset
subject yields no detection (no pixel differs from the background). -/
theorem detect_bounds_spec_witness :
    detectContentBounds ⟨1, 1, fun _ _ => (255, 255, 255)⟩ = none :=
  (detect_bounds_spec ⟨1, 1, fun _ _ => (255, 255, 255)⟩).1.mpr
    (Or.inr (Or.inl (by
      intro x y hx hy hov
      simp only [overPixel, pixelDiff, bgColor] at hov
      norm_num at hov)))

/-- Witness for `render_meta_independent`: suppressing the caption makes two
renders that differ only in caption metadata identical. -/
theorem render_meta_independent_witness :
    buildStampedImage ⟨some ⟨4000, 3000⟩, true, .ok none⟩
      ⟨some "2024-05-01", "Shanghai", "Spring outing"⟩ ⟨1800, 1350⟩
      ⟨false, .jpeg, none⟩ =
    buildStampedImage ⟨some ⟨4000, 3000⟩, true, .ok none⟩
      ⟨none, "", ""⟩ ⟨1800, 1350⟩ ⟨false, .jpeg, none⟩ :=
  (render_meta_independent ⟨some ⟨4000, 3000⟩, true, .ok none⟩ ⟨1800, 1350⟩
    .jpeg none ⟨some "2024-05-01", "Shanghai", "Spring outing"⟩ ⟨none, "", ""⟩).1

end ImgStamp
